import Mathlib

/-!
Verification of the FocusMate Room Coordination Engine.

A shallow embedding of the Socket.io engine found in
`frontend/src/lib/types.ts` (room join/leave, chat relay, timer state
machine, WebRTC signaling relay) together with the host-side timer tick
loop of the `PomodoroTimer` component.  Machine state kept by the engine
(`roomUsers`, `roomMessages`, per-socket `currentRoom`, the durable room
records) is modelled explicitly; each inbound socket event becomes a case
of a dispatch function returning the new state plus the list of emissions.
-/

namespace FocusMate

abbrev ConnId := String
abbrev RoomId := String
abbrev UserId := String

/-- Durable/broadcast timer state (`TimerState` in the source). -/
structure TimerState where
  isRunning : Bool
  timeRemaining : Int
  isBreak : Bool
  startedAt : Option Nat
  workDuration : Int
  breakDuration : Int
deriving DecidableEq, Repr

/-- Payload of a `timer-tick` event (`{timeRemaining, isRunning, isBreak}`). -/
structure TickPayload where
  timeRemaining : Int
  isRunning : Bool
  isBreak : Bool
deriving DecidableEq, Repr

/-- A chat message (`Message` in the source).  The source sets
`id = Date.now().toString()` and `timestamp = new Date().toISOString()`;
both derive from the wall clock at creation, modelled as a `Nat`. -/
structure Msg where
  id : Nat
  userId : UserId
  username : String
  content : String
  timestamp : Nat
deriving DecidableEq, Repr

/-- The durable room record as the engine reads it (`Room.findOne`):
host identity plus the mirrored timer state. -/
structure DRoom where
  host : UserId
  timerState : TimerState
deriving DecidableEq, Repr

/-- One entry of `roomUsers` (the per-room `Map` of connected users),
flattened as (room, connection) with the stored identity fields. -/
structure PresenceEntry where
  room : RoomId
  conn : ConnId
  userId : UserId
  username : String
deriving DecidableEq, Repr

/-- Association-list lookup (models `Map.get`). -/
def alookup {α β : Type} [DecidableEq α] (k : α) : List (α × β) → Option β
  | [] => none
  | (a, b) :: l => if a = k then some b else alookup k l

/-- Association-list insert/replace (models `Map.set`): an existing key
keeps its position, a new key is appended. -/
def aset {α β : Type} [DecidableEq α] (k : α) (v : β) : List (α × β) → List (α × β)
  | [] => [(k, v)]
  | (a, b) :: l => if a = k then (k, v) :: l else (a, b) :: aset k v l

/-- Association-list delete (models `Map.delete`). -/
def aerase {α β : Type} [DecidableEq α] (k : α) : List (α × β) → List (α × β)
  | [] => []
  | (a, b) :: l => if a = k then l else (a, b) :: aerase k l

/-- `roomUsers.get(roomId).set(socket.id, …)`: replace the entry for the
same (room, connection) in place, else append. -/
def upsertEntry (v : PresenceEntry) : List PresenceEntry → List PresenceEntry
  | [] => [v]
  | e :: l =>
    if e.room = v.room ∧ e.conn = v.conn then v :: l else e :: upsertEntry v l

/-- `messages.push(message); if (messages.length > 100) messages.shift();` -/
def pushMessage (buf : List Msg) (m : Msg) : List Msg :=
  let b := buf ++ [m]
  if 100 < b.length then b.drop 1 else b

/-- JavaScript `String.prototype.trim` (used as `content.trim()` in the
`send-message` handler): strip whitespace from both ends. -/
def jsTrim (s : String) : String :=
  String.mk (((s.data.dropWhile Char.isWhitespace).reverse.dropWhile Char.isWhitespace).reverse)

/-- Construction of the message object in the `send-message` handler. -/
def mkMessage (now : Nat) (u n content : String) : Msg :=
  { id := now, userId := u, username := n, content := jsTrim content, timestamp := now }

/-- The four host commands of `handleTimerAction`. -/
inductive TimerAction
  | start
  | pause
  | reset
  | switchMode
deriving DecidableEq, Repr

/-- The `newState` computed in `handleTimerAction`'s `switch (action)`;
the durable update (`updateData`) touches exactly the same fields. -/
def applyTimerAction (ts : TimerState) (now : Nat) : TimerAction → TimerState
  | .start => { ts with isRunning := true, startedAt := some now }
  | .pause => { ts with isRunning := false }
  | .reset =>
    { ts with isRunning := false
            , timeRemaining := if ts.isBreak then ts.breakDuration else ts.workDuration
            , startedAt := none }
  | .switchMode =>
    let b := !ts.isBreak
    { ts with isBreak := b
            , isRunning := false
            , timeRemaining := if b then ts.breakDuration else ts.workDuration
            , startedAt := none }

/-- Outbound socket events with the payloads the engine attaches. -/
inductive OutEv
  | roomState (ts : TimerState) (messages : List Msg) (users : List PresenceEntry) (hostId : UserId)
  | userJoined (c : ConnId) (u n : String)
  | usersUpdate (users : List PresenceEntry)
  | userLeft (c : ConnId) (u n : String)
  | receiveMessage (m : Msg)
  | timerSyncState (ts : TimerState)
  | timerSyncTick (p : TickPayload)
  | videoUserReady (c : ConnId) (n : String)
  | videoOfferE (fromConn : ConnId) (n : String) (payload : String)
  | videoAnswerE (fromConn : ConnId) (payload : String)
  | videoIceE (fromConn : ConnId) (payload : String)
  | videoUserLeft (c : ConnId)
  | errorEv (message : String)
deriving DecidableEq, Repr

/-- An emission: `socket.emit` (to one connection), `io.to(room).emit`
(to the whole room), or `socket.to(room).emit` (room minus sender). -/
inductive Emit
  | toConn (c : ConnId) (e : OutEv)
  | toRoom (r : RoomId) (e : OutEv)
  | toRoomExcept (r : RoomId) (c : ConnId) (e : OutEv)
deriving DecidableEq, Repr

/-- Inbound socket events.  Each carries the sending connection's id and
the identity fields the handler reads off the authenticated socket. -/
inductive Ev
  | joinRoom (c : ConnId) (u n : String) (r : RoomId)
  | leaveRoom (c : ConnId) (u n : String)
  | disconnect (c : ConnId) (u n : String)
  | sendMessage (c : ConnId) (u n content : String) (now : Nat)
  | timerCmd (c : ConnId) (u : String) (act : TimerAction) (now : Nat)
  | timerTick (c : ConnId) (p : TickPayload)
  | videoReady (c : ConnId) (n : String)
  | videoOffer (c : ConnId) (n : String) (target : ConnId) (payload : String)
  | videoAnswer (c : ConnId) (target : ConnId) (payload : String)
  | videoIce (c : ConnId) (target : ConnId) (payload : String)
  | videoLeave (c : ConnId)
deriving DecidableEq, Repr

/-- The engine's mutable state: the durable store (`Room` collection,
restricted to what the engine reads/writes), the two in-memory maps, and
every socket's `currentRoom` field. -/
structure Sys where
  db : List (RoomId × DRoom)
  users : List PresenceEntry
  msgs : List (RoomId × List Msg)
  cur : ConnId → Option RoomId

/-- Update one socket's `currentRoom`. -/
def setCur (c : ConnId) (v : Option RoomId) (f : ConnId → Option RoomId) :
    ConnId → Option RoomId :=
  fun x => if x = c then v else f x

/-- `handleLeaveRoom(socket, io)`. -/
def handleLeaveRoom (s : Sys) (c : ConnId) (u n : String) : Sys × List Emit :=
  match s.cur c with
  | none => (s, [])
  | some r =>
    if s.users.any (fun e => e.room == r) then
      let users' := s.users.filter (fun e => !(e.room == r && e.conn == c))
      if users'.any (fun e => e.room == r) then
        ({ s with users := users', cur := setCur c none s.cur },
         [Emit.toRoom r (OutEv.userLeft c u n),
          Emit.toRoom r (OutEv.usersUpdate (users'.filter (fun e => e.room == r))),
          Emit.toRoom r (OutEv.videoUserLeft c)])
      else
        ({ s with users := users', msgs := aerase r s.msgs, cur := setCur c none s.cur },
         [])
    else
      ({ s with cur := setCur c none s.cur }, [])

/-- The event dispatch: one case per `socket.on` handler of the source. -/
def handleEvent (s : Sys) : Ev → Sys × List Emit
  | .joinRoom c u n r =>
    match alookup r s.db with
    | none => (s, [Emit.toConn c (OutEv.errorEv "Room not found")])
    | some rm =>
      let users' := upsertEntry ⟨r, c, u, n⟩ s.users
      let msgs' :=
        match alookup r s.msgs with
        | none => aset r [] s.msgs
        | some _ => s.msgs
      let roomList := users'.filter (fun e => e.room == r)
      ({ s with users := users', msgs := msgs', cur := setCur c (some r) s.cur },
       [Emit.toConn c (OutEv.roomState rm.timerState ((alookup r msgs').getD []) roomList rm.host),
        Emit.toRoomExcept r c (OutEv.userJoined c u n),
        Emit.toRoom r (OutEv.usersUpdate roomList)])
  | .leaveRoom c u n => handleLeaveRoom s c u n
  | .disconnect c u n => handleLeaveRoom s c u n
  | .sendMessage c u n content now =>
    match s.cur c with
    | none => (s, [])
    | some r =>
      if content = "" then (s, [])
      else
        let m := mkMessage now u n content
        let msgs' :=
          match alookup r s.msgs with
          | some buf => aset r (pushMessage buf m) s.msgs
          | none => s.msgs
        ({ s with msgs := msgs' }, [Emit.toRoom r (OutEv.receiveMessage m)])
  | .timerCmd c u act now =>
    match s.cur c with
    | none => (s, [])
    | some r =>
      match alookup r s.db with
      | none => (s, [])
      | some rm =>
        if rm.host ≠ u then
          (s, [Emit.toConn c (OutEv.errorEv "Only the host can control the timer")])
        else
          let ts' := applyTimerAction rm.timerState now act
          ({ s with db := aset r { rm with timerState := ts' } s.db },
           [Emit.toRoom r (OutEv.timerSyncState ts')])
  | .timerTick c p =>
    match s.cur c with
    | none => (s, [])
    | some r =>
      let db' :=
        match alookup r s.db with
        | some rm =>
          aset r { rm with timerState :=
            { rm.timerState with timeRemaining := p.timeRemaining, isRunning := p.isRunning } } s.db
        | none => s.db
      ({ s with db := db' }, [Emit.toRoomExcept r c (OutEv.timerSyncTick p)])
  | .videoReady c n =>
    match s.cur c with
    | none => (s, [])
    | some r => (s, [Emit.toRoomExcept r c (OutEv.videoUserReady c n)])
  | .videoOffer c n target payload =>
    (s, [Emit.toConn target (OutEv.videoOfferE c n payload)])
  | .videoAnswer c target payload =>
    (s, [Emit.toConn target (OutEv.videoAnswerE c payload)])
  | .videoIce c target payload =>
    (s, [Emit.toConn target (OutEv.videoIceE c payload)])
  | .videoLeave c =>
    match s.cur c with
    | none => (s, [])
    | some r => (s, [Emit.toRoomExcept r c (OutEv.videoUserLeft c)])

/-- Run a sequence of inbound events, keeping only the state. -/
def runTrace (s : Sys) : List Ev → Sys
  | [] => s
  | e :: tr => runTrace (handleEvent s e).1 tr

/-- What the host's browser emits during one tick. -/
inductive ClientEmit
  | tickEmit (p : TickPayload)
  | switchEmit
deriving DecidableEq, Repr

/-- The `tick` callback of the `PomodoroTimer` component: the local state
update plus the socket events it emits, in order. -/
def clientTick (isHost : Bool) (prev : TimerState) : TimerState × List ClientEmit :=
  if !prev.isRunning || prev.timeRemaining ≤ 0 then (prev, [])
  else
    let newTime := prev.timeRemaining - 1
    let emits :=
      if isHost then
        [ClientEmit.tickEmit { timeRemaining := newTime, isRunning := true, isBreak := prev.isBreak }]
      else []
    if newTime ≤ 0 then
      ({ prev with timeRemaining := 0, isRunning := false },
       emits ++ (if isHost then [ClientEmit.switchEmit] else []))
    else
      ({ prev with timeRemaining := newTime }, emits)

/-- Map the client's emissions to the server events they become, for the
host connection `c` with user id `u` (the `timer-switch-mode` handler is
invoked with the server clock, abstracted as `now`). -/
def clientEmitToEv (c : ConnId) (u : String) (now : Nat) : ClientEmit → Ev
  | .tickEmit p => Ev.timerTick c p
  | .switchEmit => Ev.timerCmd c u TimerAction.switchMode now

/-- Participant count of room `r` (size of its `roomUsers` map). -/
def count (r : RoomId) (s : Sys) : Nat :=
  s.users.countP (fun e => e.room == r)

/-- Connections with a `join-room` event targeting `r`, in event order. -/
def joinsOf : List Ev → RoomId → List ConnId
  | [], _ => []
  | .joinRoom c _ _ r' :: tr, r => if r' = r then c :: joinsOf tr r else joinsOf tr r
  | _ :: tr, r => joinsOf tr r

/-- Whether the trace contains a `leave-room` or `disconnect` of `x`. -/
def departedIn : List Ev → ConnId → Bool
  | [], _ => false
  | .leaveRoom c _ _ :: tr, x => (c == x) || departedIn tr x
  | .disconnect c _ _ :: tr, x => (c == x) || departedIn tr x
  | _ :: tr, x => departedIn tr x

/-- Distinct connectionIds that have joined room `r` in the trace. -/
def joinedConns (tr : List Ev) (r : RoomId) : List ConnId :=
  (joinsOf tr r).dedup

/-- Of those, the ones that have left or disconnected. -/
def departedConns (tr : List Ev) (r : RoomId) : List ConnId :=
  (joinedConns tr r).filter (fun c => departedIn tr c)

/-- Well-formed traces for the presence-count law: every join targets an
existing room and is issued by a connection that never joined before, and
a connection leaves or disconnects only after having joined.  `J` is the
set of connections that have ever joined. -/
def wf (rooms : List RoomId) : List Ev → List ConnId → Bool
  | [], _ => true
  | .joinRoom c _ _ r :: tr, J =>
    decide (r ∈ rooms) && !decide (c ∈ J) && wf rooms tr (c :: J)
  | .leaveRoom c _ _ :: tr, J => decide (c ∈ J) && wf rooms tr J
  | .disconnect c _ _ :: tr, J => decide (c ∈ J) && wf rooms tr J
  | _ :: tr, J => wf rooms tr J

/-- Whether an event mutates the Presence Registry or `currentRoom`. -/
def isPresenceEv : Ev → Bool
  | .joinRoom .. => true
  | .leaveRoom .. => true
  | .disconnect .. => true
  | _ => false

/-- The reachable-state invariant tying the Presence Registry, the
`currentRoom` fields and the ever-joined set `J` together at the
well-formed traces. -/
def Inv (rooms : List RoomId) (s : Sys) (J : List ConnId) : Prop :=
  (∀ e ∈ s.users, s.cur e.conn = some e.room) ∧
  (∀ c r, s.cur c = some r → ∃ e, e ∈ s.users ∧ e.conn = c ∧ e.room = r) ∧
  (s.users.map PresenceEntry.conn).Nodup ∧
  (∀ e ∈ s.users, e.conn ∈ J) ∧
  (∀ r ∈ rooms, (alookup r s.db).isSome = true)

/-- A sample timer state used for concrete witnesses. -/
def tsW : TimerState :=
  { isRunning := true, timeRemaining := 10, isBreak := false
  , startedAt := some 5, workDuration := 1500, breakDuration := 300 }

/-- A sample durable room record, hosted by `"u1"`. -/
def roomW : DRoom := { host := "u1", timerState := tsW }

/-- A sample engine state: room `"r"` with joined connections `"A"`
(user `"u1"`, the host) and `"B"` (user `"u2"`). -/
def sysW : Sys :=
  { db := [("r", roomW)]
  , users := [⟨"r", "A", "u1", "alice"⟩, ⟨"r", "B", "u2", "bob"⟩]
  , msgs := [("r", [])]
  , cur := fun x => if x = "A" ∨ x = "B" then some "r" else none }

/-- Initial state for the presence-count scenario: two durable rooms,
nobody joined yet. -/
def sys8 : Sys :=
  { db := [("R1", roomW), ("R2", roomW)]
  , users := []
  , msgs := []
  , cur := fun _ => none }

/-- A connection joins `R1`, then joins `R2` without leaving, then
disconnects. -/
def tr8 : List Ev :=
  [Ev.joinRoom "A" "u1" "alice" "R1",
   Ev.joinRoom "A" "u1" "alice" "R2",
   Ev.disconnect "A" "u1" "alice"]

/-- A well-formed trace: two distinct connections join `R1`, then the
first one leaves. -/
def tr8ok : List Ev :=
  [Ev.joinRoom "A" "u1" "alice" "R1",
   Ev.joinRoom "B" "u2" "bob" "R1",
   Ev.leaveRoom "A" "u1" "alice"]

/-- `tsW` one second before the work phase ends. -/
def tsW1 : TimerState := { tsW with timeRemaining := 1 }

/-- Whether an emission is an `error` event. -/
def isErrorEmit : Emit → Bool
  | Emit.toConn _ (OutEv.errorEv _) => true
  | Emit.toRoom _ (OutEv.errorEv _) => true
  | Emit.toRoomExcept _ _ (OutEv.errorEv _) => true
  | _ => false

/-- The message produced by `"alice"` at clock 1000. -/
def msgA : Msg :=
  { id := 1000, userId := "u1", username := "alice", content := "hi", timestamp := 1000 }

/-- The message produced by `"bob"`, also at clock 1000. -/
def msgB : Msg :=
  { id := 1000, userId := "u2", username := "bob", content := "yo", timestamp := 1000 }

theorem alookup_aset {α β : Type} [DecidableEq α] (k k' : α) (v : β) (l : List (α × β)) :
    alookup k (aset k' v l) = if k' = k then some v else alookup k l := by
  induction l with
  | nil => simp [aset, alookup]
  | cons hd tl ih =>
    obtain ⟨a, b⟩ := hd
    by_cases h1 : a = k'
    · subst h1
      simp only [aset, if_pos rfl, alookup]
      by_cases h2 : a = k
      · simp [h2]
      · simp [h2]
    · simp only [aset, if_neg h1, alookup]
      by_cases h2 : a = k
      · subst h2
        have hne : ¬k' = a := fun h => h1 h.symm
        simp [hne]
      · simp [h2, ih]

/-- C3: Any of the four explicit timer commands from a joined connection
whose user is not the room's host leaves the whole engine state unchanged
and yields exactly one `error` event, to the requester only. -/
theorem claim_C3_nonhost_timer_command_rejected
    (s : Sys) (c : ConnId) (u : String) (act : TimerAction) (now : Nat)
    (r : RoomId) (rm : DRoom)
    (hcur : s.cur c = some r) (hdb : alookup r s.db = some rm)
    (hne : u ≠ rm.host) :
    handleEvent s (Ev.timerCmd c u act now)
      = (s, [Emit.toConn c (OutEv.errorEv "Only the host can control the timer")]) := by
  simp [handleEvent, hcur, hdb, Ne.symm hne]

theorem claim_C3_nonhost_timer_command_rejected_witness :
    ("u2" : String) ≠ roomW.host ∧
    handleEvent sysW (Ev.timerCmd "B" "u2" TimerAction.start 7)
      = (sysW, [Emit.toConn "B" (OutEv.errorEv "Only the host can control the timer")]) :=
  ⟨by decide,
   claim_C3_nonhost_timer_command_rejected sysW "B" "u2" TimerAction.start 7 "r" roomW
     (by decide) (by decide) (by decide)⟩

/-- C6: A host-issued `timer-reset` yields `timeRemaining` equal to the
current phase's configured duration, `isRunning = false`,
`startedAt = null`, leaving `isBreak` and both durations unchanged. -/
theorem claim_C6_reset_restores_phase_duration
    (s : Sys) (c : ConnId) (now : Nat) (r : RoomId) (rm : DRoom)
    (hcur : s.cur c = some r) (hdb : alookup r s.db = some rm) :
    ∃ rm' : DRoom,
      alookup r (handleEvent s (Ev.timerCmd c rm.host TimerAction.reset now)).1.db = some rm' ∧
      rm'.timerState.isRunning = false ∧
      rm'.timerState.timeRemaining =
        (if rm.timerState.isBreak then rm.timerState.breakDuration else rm.timerState.workDuration) ∧
      rm'.timerState.startedAt = none ∧
      rm'.timerState.isBreak = rm.timerState.isBreak ∧
      rm'.timerState.workDuration = rm.timerState.workDuration ∧
      rm'.timerState.breakDuration = rm.timerState.breakDuration := by
  refine ⟨{ rm with timerState := applyTimerAction rm.timerState now TimerAction.reset }, ?_,
    rfl, rfl, rfl, rfl, rfl, rfl⟩
  simp [handleEvent, hcur, hdb, alookup_aset]

theorem claim_C6_reset_restores_phase_duration_witness :
    sysW.cur "A" = some "r" ∧
    (∃ rm' : DRoom,
      alookup "r" (handleEvent sysW (Ev.timerCmd "A" roomW.host TimerAction.reset 7)).1.db = some rm' ∧
      rm'.timerState.isRunning = false ∧
      rm'.timerState.timeRemaining =
        (if roomW.timerState.isBreak then roomW.timerState.breakDuration else roomW.timerState.workDuration) ∧
      rm'.timerState.startedAt = none ∧
      rm'.timerState.isBreak = roomW.timerState.isBreak ∧
      rm'.timerState.workDuration = roomW.timerState.workDuration ∧
      rm'.timerState.breakDuration = roomW.timerState.breakDuration) :=
  ⟨by decide,
   claim_C6_reset_restores_phase_duration sysW "A" 7 "r" roomW (by decide) (by decide)⟩

/-- C10: A `timer-tick` mirrors exactly `timeRemaining` and `isRunning`
into the durable record; `isBreak`, `startedAt` and both durations are
not written, while the broadcast to the other participants carries the
full payload, `isBreak` included. -/
theorem claim_C10_tick_mirrors_only_two_fields
    (s : Sys) (c : ConnId) (p : TickPayload) (r : RoomId) (rm : DRoom)
    (hcur : s.cur c = some r) (hdb : alookup r s.db = some rm) :
    ∃ rm' : DRoom,
      alookup r (handleEvent s (Ev.timerTick c p)).1.db = some rm' ∧
      rm'.timerState.timeRemaining = p.timeRemaining ∧
      rm'.timerState.isRunning = p.isRunning ∧
      rm'.timerState.isBreak = rm.timerState.isBreak ∧
      rm'.timerState.startedAt = rm.timerState.startedAt ∧
      rm'.timerState.workDuration = rm.timerState.workDuration ∧
      rm'.timerState.breakDuration = rm.timerState.breakDuration ∧
      rm'.host = rm.host ∧
      (handleEvent s (Ev.timerTick c p)).2 = [Emit.toRoomExcept r c (OutEv.timerSyncTick p)] ∧
      (Emit.toRoomExcept r c (OutEv.timerSyncTick p) : Emit)
        = Emit.toRoomExcept r c (OutEv.timerSyncTick { p with isBreak := p.isBreak }) := by
  refine ⟨{ rm with timerState :=
      { rm.timerState with timeRemaining := p.timeRemaining, isRunning := p.isRunning } },
    ?_, rfl, rfl, rfl, rfl, rfl, rfl, rfl, ?_, rfl⟩
  · simp [handleEvent, hcur, hdb, alookup_aset]
  · simp [handleEvent, hcur, hdb]

theorem claim_C10_tick_mirrors_only_two_fields_witness :
    sysW.cur "A" = some "r" ∧
    (∃ rm' : DRoom,
      alookup "r" (handleEvent sysW (Ev.timerTick "A" ⟨42, false, true⟩)).1.db = some rm' ∧
      rm'.timerState.timeRemaining = (42 : Int) ∧
      rm'.timerState.isRunning = false ∧
      rm'.timerState.isBreak = roomW.timerState.isBreak ∧
      rm'.timerState.startedAt = roomW.timerState.startedAt ∧
      rm'.timerState.workDuration = roomW.timerState.workDuration ∧
      rm'.timerState.breakDuration = roomW.timerState.breakDuration) := by
  obtain ⟨rm', h1, h2, h3, h4, h5, h6, h7, -⟩ :=
    claim_C10_tick_mirrors_only_two_fields sysW "A" ⟨42, false, true⟩ "r" roomW
      (by decide) (by decide)
  exact ⟨by decide, rm', h1, h2, h3, h4, h5, h6, h7⟩

/-- C2 fails on the code: the `timer-tick` handler never checks the
requester against the room's host.  Here connection `"B"` (user `"u2"`,
not the host `"u1"`) sends a tick; the durable Timer State changes and no
error is emitted to anyone. -/
theorem claim_C2_counterexample :
    roomW.host = "u1" ∧ ("u2" : String) ≠ "u1" ∧ sysW.cur "B" = some "r" ∧
    (handleEvent sysW (Ev.timerTick "B" ⟨5, true, false⟩)).1.db ≠ sysW.db ∧
    (handleEvent sysW (Ev.timerTick "B" ⟨5, true, false⟩)).2.any isErrorEmit = false := by
  decide

/-- C2 amended: only the four explicit timer commands are gated by
`requesterUserId == hostUserId`; `timer-tick` is not gated at all — a
tick from any joined connection, host or not, updates the durable
`timeRemaining`/`isRunning` mirror and is broadcast to the other
participants, with no error signalled. -/
theorem claim_C2_amended_tick_not_host_gated
    (s : Sys) (c : ConnId) (u : String) (r : RoomId) (rm : DRoom)
    (hcur : s.cur c = some r) (hdb : alookup r s.db = some rm) :
    (∀ act now, u ≠ rm.host →
      handleEvent s (Ev.timerCmd c u act now)
        = (s, [Emit.toConn c (OutEv.errorEv "Only the host can control the timer")])) ∧
    (∀ p : TickPayload,
      (handleEvent s (Ev.timerTick c p)).1.db
        = aset r { rm with timerState :=
            { rm.timerState with timeRemaining := p.timeRemaining, isRunning := p.isRunning } } s.db ∧
      (handleEvent s (Ev.timerTick c p)).1.users = s.users ∧
      (handleEvent s (Ev.timerTick c p)).1.msgs = s.msgs ∧
      (handleEvent s (Ev.timerTick c p)).1.cur = s.cur ∧
      (handleEvent s (Ev.timerTick c p)).2 = [Emit.toRoomExcept r c (OutEv.timerSyncTick p)] ∧
      (handleEvent s (Ev.timerTick c p)).2.any isErrorEmit = false) := by
  constructor
  · intro act now hne
    simp [handleEvent, hcur, hdb, Ne.symm hne]
  · intro p
    refine ⟨?_, ?_, ?_, ?_, ?_, ?_⟩ <;> simp [handleEvent, hcur, hdb, isErrorEmit]

theorem claim_C2_amended_tick_not_host_gated_witness :
    sysW.cur "B" = some "r" ∧
    (handleEvent sysW (Ev.timerTick "B" ⟨5, true, false⟩)).1.db
      = aset "r" { roomW with timerState :=
          { roomW.timerState with timeRemaining := 5, isRunning := true } } sysW.db ∧
    (handleEvent sysW (Ev.timerTick "B" ⟨5, true, false⟩)).2.any isErrorEmit = false :=
  ⟨by decide,
   ((claim_C2_amended_tick_not_host_gated sysW "B" "u2" "r" roomW
      (by decide) (by decide)).2 ⟨5, true, false⟩).1,
   ((claim_C2_amended_tick_not_host_gated sysW "B" "u2" "r" roomW
      (by decide) (by decide)).2 ⟨5, true, false⟩).2.2.2.2.2⟩

/-- C4 fails on the code: the three point-to-point signaling handlers
(`video-offer`, `video-answer`, `video-ice-candidate`) never check
`currentRoom`, so an authenticated connection that has joined no room can
still deliver an offer to any target connection. -/
theorem claim_C4_counterexample :
    sysW.cur "X" = none ∧
    handleEvent sysW (Ev.videoOffer "X" "mallory" "B" "sdp")
      = (sysW, [Emit.toConn "B" (OutEv.videoOfferE "X" "mallory" "sdp")]) ∧
    (handleEvent sysW (Ev.videoOffer "X" "mallory" "B" "sdp")).2 ≠ [] :=
  ⟨by decide, rfl, by decide⟩

/-- C4 amended: for a connection with no successful join, `send-message`,
every timer event, `video-ready`, `video-leave`, `leave-room` and
`disconnect` have no effect and deliver nothing; but the point-to-point
signaling events `video-offer`, `video-answer` and `video-ice-candidate`
are forwarded to their target connection regardless of join status (state
still unchanged). -/
theorem claim_C4_amended_unjoined_events
    (s : Sys) (c : ConnId) (h : s.cur c = none) :
    (∀ u n content now, handleEvent s (Ev.sendMessage c u n content now) = (s, [])) ∧
    (∀ u act now, handleEvent s (Ev.timerCmd c u act now) = (s, [])) ∧
    (∀ p, handleEvent s (Ev.timerTick c p) = (s, [])) ∧
    (∀ n, handleEvent s (Ev.videoReady c n) = (s, [])) ∧
    (handleEvent s (Ev.videoLeave c) = (s, [])) ∧
    (∀ u n, handleEvent s (Ev.leaveRoom c u n) = (s, [])) ∧
    (∀ u n, handleEvent s (Ev.disconnect c u n) = (s, [])) ∧
    (∀ n t payload, handleEvent s (Ev.videoOffer c n t payload)
      = (s, [Emit.toConn t (OutEv.videoOfferE c n payload)])) ∧
    (∀ t payload, handleEvent s (Ev.videoAnswer c t payload)
      = (s, [Emit.toConn t (OutEv.videoAnswerE c payload)])) ∧
    (∀ t payload, handleEvent s (Ev.videoIce c t payload)
      = (s, [Emit.toConn t (OutEv.videoIceE c payload)])) := by
  refine ⟨?_, ?_, ?_, ?_, ?_, ?_, ?_, ?_, ?_, ?_⟩ <;>
    intros <;> simp [handleEvent, handleLeaveRoom, h]

theorem claim_C4_amended_unjoined_events_witness :
    sysW.cur "X" = none ∧
    handleEvent sysW (Ev.sendMessage "X" "u9" "eve" "hi" 1) = (sysW, []) ∧
    handleEvent sysW (Ev.timerTick "X" ⟨5, true, false⟩) = (sysW, []) :=
  ⟨by decide,
   (claim_C4_amended_unjoined_events sysW "X" (by decide)).1 "u9" "eve" "hi" 1,
   (claim_C4_amended_unjoined_events sysW "X" (by decide)).2.2.1 ⟨5, true, false⟩⟩

/-- C5: the chat buffer never grows past 100 messages, and appending to a
full buffer evicts the oldest entry: the result is the old buffer minus
its first message, with the new message appended, so the former head (if
it occurs nowhere else) is gone and the rest keep their order. -/
theorem claim_C5_chat_buffer_bounded_fifo
    (s : Sys) (c : ConnId) (u n content : String) (now : Nat)
    (r : RoomId) (buf : List Msg)
    (hcur : s.cur c = some r) (hc : ¬content = "") (hbuf : alookup r s.msgs = some buf) :
    alookup r ((handleEvent s (Ev.sendMessage c u n content now)).1.msgs)
      = some (pushMessage buf (mkMessage now u n content)) ∧
    (buf.length ≤ 100 → (pushMessage buf (mkMessage now u n content)).length ≤ 100) ∧
    (buf.length = 100 →
      pushMessage buf (mkMessage now u n content)
        = buf.drop 1 ++ [mkMessage now u n content]) ∧
    (∀ m0, buf.length = 100 → m0 ∉ buf.drop 1 → m0 ≠ mkMessage now u n content →
      m0 ∉ pushMessage buf (mkMessage now u n content)) := by
  have hlen : (buf ++ [mkMessage now u n content]).length = buf.length + 1 := by simp
  have hdrop : buf.length = 100 →
      pushMessage buf (mkMessage now u n content)
        = buf.drop 1 ++ [mkMessage now u n content] := by
    intro h100
    have : 1 ≤ buf.length := by omega
    simp [pushMessage, h100, List.drop_append_of_le_length this]
  refine ⟨?_, ?_, hdrop, ?_⟩
  · simp [handleEvent, hcur, hc, hbuf, alookup_aset]
  · intro hle
    simp only [pushMessage]
    split_ifs with hbig
    · simp only [List.length_drop, hlen]
      omega
    · simp only [hlen] at hbig ⊢
      omega
  · intro m0 h100 hnotin hne hmem
    rw [hdrop h100] at hmem
    rcases List.mem_append.mp hmem with h | h
    · exact hnotin h
    · exact hne (List.mem_singleton.mp h)

theorem claim_C5_chat_buffer_bounded_fifo_witness :
    (List.replicate 100 msgA).length = 100 ∧
    (pushMessage (List.replicate 100 msgA) (mkMessage 2000 "u2" "bob" "yo")).length ≤ 100 ∧
    pushMessage (List.replicate 100 msgA) (mkMessage 2000 "u2" "bob" "yo")
      = (List.replicate 100 msgA).drop 1 ++ [mkMessage 2000 "u2" "bob" "yo"] := by
  have h := claim_C5_chat_buffer_bounded_fifo
    { sysW with msgs := [("r", List.replicate 100 msgA)] }
    "B" "u2" "bob" "yo" 2000 "r" (List.replicate 100 msgA)
    (by decide) (by decide) (by simp [alookup])
  exact ⟨by simp, h.2.1 (by simp), h.2.2.1 (by simp)⟩

/-- C7 fails on the code: only falsy (empty) content is rejected; the
whitespace-only string `" "` passes the guard, is trimmed to `""`, and a
message with empty content is appended to the buffer and broadcast. -/
theorem claim_C7_counterexample :
    (" " : String) ≠ "" ∧ jsTrim " " = "" ∧
    alookup "r" ((handleEvent sysW (Ev.sendMessage "A" "u1" "alice" " " 42)).1.msgs)
      = some [{ id := 42, userId := "u1", username := "alice", content := "", timestamp := 42 }] ∧
    (handleEvent sysW (Ev.sendMessage "A" "u1" "alice" " " 42)).2
      = [Emit.toRoom "r" (OutEv.receiveMessage
          { id := 42, userId := "u1", username := "alice", content := "", timestamp := 42 })] := by
  decide

/-- C7 amended: only content equal to the empty string is rejected
(dropped silently, nothing appended or broadcast); any other content —
whitespace-only included — is accepted: it is stored trimmed (possibly
empty) and broadcast, and no length bound is enforced (the stored content
is exactly the trimmed input, however long). -/
theorem claim_C7_amended_only_empty_rejected
    (s : Sys) (c : ConnId) (u n content : String) (now : Nat) (r : RoomId)
    (hcur : s.cur c = some r) :
    (content = "" → handleEvent s (Ev.sendMessage c u n content now) = (s, [])) ∧
    (¬content = "" →
      (mkMessage now u n content).content = jsTrim content ∧
      (∀ buf, alookup r s.msgs = some buf →
        alookup r ((handleEvent s (Ev.sendMessage c u n content now)).1.msgs)
          = some (pushMessage buf (mkMessage now u n content))) ∧
      (handleEvent s (Ev.sendMessage c u n content now)).2
        = [Emit.toRoom r (OutEv.receiveMessage (mkMessage now u n content))]) := by
  constructor
  · intro he
    simp [handleEvent, hcur, he]
  · intro hne
    refine ⟨rfl, ?_, ?_⟩
    · intro buf hbuf
      simp [handleEvent, hcur, hne, hbuf, alookup_aset]
    · simp [handleEvent, hcur, hne]

theorem claim_C7_amended_only_empty_rejected_witness :
    jsTrim " " = "" ∧
    (mkMessage 42 "u1" "alice" " ").content = jsTrim " " ∧
    handleEvent sysW (Ev.sendMessage "A" "u1" "alice" "" 42) = (sysW, []) :=
  ⟨by decide,
   ((claim_C7_amended_only_empty_rejected sysW "A" "u1" "alice" " " 42 "r" (by decide)).2
     (by decide)).1,
   (claim_C7_amended_only_empty_rejected sysW "A" "u1" "alice" "" 42 "r" (by decide)).1 rfl⟩

/-- C9 fails on the code: message ids are the wall clock
(`Date.now().toString()`), so two messages created in the same
millisecond — here `"hi"` from `"A"` and `"yo"` from `"B"`, both at
clock 1000 — are distinct messages with equal ids. -/
theorem claim_C9_counterexample :
    alookup "r" ((handleEvent
        (handleEvent sysW (Ev.sendMessage "A" "u1" "alice" "hi" 1000)).1
        (Ev.sendMessage "B" "u2" "bob" "yo" 1000)).1.msgs)
      = some [msgA, msgB] ∧ msgA ≠ msgB ∧ msgA.id = msgB.id := by
  decide

/-- C9 amended: a message's id is exactly the creation-time clock, so ids
are unique and strictly increasing only across appends at strictly
increasing clock values: if every buffered id is below the current clock
and the buffer's ids are strictly increasing, the appended buffer keeps
strictly increasing (hence pairwise distinct) ids, all bounded by the
clock. -/
theorem claim_C9_amended_ids_follow_clock
    (s : Sys) (c : ConnId) (u n content : String) (now : Nat)
    (r : RoomId) (buf : List Msg)
    (hcur : s.cur c = some r) (hc : ¬content = "") (hbuf : alookup r s.msgs = some buf)
    (hlt : ∀ m ∈ buf, m.id < now)
    (hsorted : buf.Pairwise (fun a b => a.id < b.id)) :
    ∃ buf', alookup r ((handleEvent s (Ev.sendMessage c u n content now)).1.msgs) = some buf' ∧
      buf'.Pairwise (fun a b => a.id < b.id) ∧
      buf'.Pairwise (fun a b => a.id ≠ b.id) ∧
      (∀ m ∈ buf', m.id ≤ now) ∧
      mkMessage now u n content ∈ buf' ∧
      (mkMessage now u n content).id = now := by
  refine ⟨pushMessage buf (mkMessage now u n content), ?_, ?_, ?_, ?_, ?_, rfl⟩
  · simp [handleEvent, hcur, hc, hbuf, alookup_aset]
  · have happ : (buf ++ [mkMessage now u n content]).Pairwise (fun a b => a.id < b.id) := by
      rw [List.pairwise_append]
      exact ⟨hsorted, List.pairwise_singleton _ _, fun a ha b hb => by
        rw [List.mem_singleton.mp hb]; exact hlt a ha⟩
    simp only [pushMessage]
    split_ifs
    · exact happ.sublist (List.drop_sublist 1 _)
    · exact happ
  · have happ : (buf ++ [mkMessage now u n content]).Pairwise (fun a b => a.id < b.id) := by
      rw [List.pairwise_append]
      exact ⟨hsorted, List.pairwise_singleton _ _, fun a ha b hb => by
        rw [List.mem_singleton.mp hb]; exact hlt a ha⟩
    have : (pushMessage buf (mkMessage now u n content)).Pairwise (fun a b => a.id < b.id) := by
      simp only [pushMessage]
      split_ifs
      · exact happ.sublist (List.drop_sublist 1 _)
      · exact happ
    exact this.imp Nat.ne_of_lt
  · intro m hm
    have hm' : m ∈ buf ++ [mkMessage now u n content] := by
      simp only [pushMessage] at hm
      revert hm
      split_ifs
      · exact fun hm => (List.drop_sublist 1 _).mem hm
      · exact id
    rcases List.mem_append.mp hm' with h | h
    · exact Nat.le_of_lt (hlt m h)
    · rw [List.mem_singleton.mp h]
      exact Nat.le_refl now
  · simp only [pushMessage]
    split_ifs with hbig
    · have h1 : 1 ≤ buf.length := by
        simp only [List.length_append, List.length_singleton] at hbig
        omega
      rw [List.drop_append_of_le_length h1]
      exact List.mem_append_right _ (List.mem_singleton.mpr rfl)
    · exact List.mem_append_right _ (List.mem_singleton.mpr rfl)

theorem claim_C9_amended_ids_follow_clock_witness :
    ∃ buf', alookup "r" ((handleEvent sysW (Ev.sendMessage "A" "u1" "alice" "hi" 1000)).1.msgs)
        = some buf' ∧
      buf'.Pairwise (fun a b => a.id < b.id) ∧
      buf'.Pairwise (fun a b => a.id ≠ b.id) ∧
      (∀ m ∈ buf', m.id ≤ 1000) ∧
      mkMessage 1000 "u1" "alice" "hi" ∈ buf' ∧
      (mkMessage 1000 "u1" "alice" "hi").id = 1000 :=
  claim_C9_amended_ids_follow_clock sysW "A" "u1" "alice" "hi" 1000 "r" []
    (by decide) (by decide) (by decide) (by intro m hm; cases hm) (List.Pairwise.nil)

/-- C1: when the host's local timer fires with one second remaining (the
tick that drives `timeRemaining` to exactly 0), the events it emits —
`timer-tick {0, true, isBreak}` followed by `timer-switch-mode` — leave
the room's durable Timer State with `isRunning = false`, `isBreak`
flipped, and `timeRemaining` reset to the new phase's duration (hence
`≥ 0`, given positive configured durations); the host's local state is
clamped to 0 and stopped. -/
theorem claim_C1_tick_to_zero_switches_phase
    (cs : TimerState) (s : Sys) (c : ConnId) (now : Nat) (r : RoomId) (rm : DRoom)
    (hrun : cs.isRunning = true) (hone : cs.timeRemaining = 1)
    (hcur : s.cur c = some r) (hdb : alookup r s.db = some rm)
    (hwd : 0 < rm.timerState.workDuration) (hbd : 0 < rm.timerState.breakDuration) :
    ∃ rm' : DRoom,
      alookup r (runTrace s ((clientTick true cs).2.map (clientEmitToEv c rm.host now))).db
        = some rm' ∧
      rm'.timerState.isRunning = false ∧
      rm'.timerState.isBreak = !rm.timerState.isBreak ∧
      rm'.timerState.timeRemaining =
        (if !rm.timerState.isBreak then rm.timerState.breakDuration
         else rm.timerState.workDuration) ∧
      0 ≤ rm'.timerState.timeRemaining ∧
      rm'.timerState.startedAt = none ∧
      (clientTick true cs).1.timeRemaining = 0 ∧
      (clientTick true cs).1.isRunning = false := by
  have hemits : clientTick true cs =
      ({ cs with timeRemaining := 0, isRunning := false },
       [ClientEmit.tickEmit { timeRemaining := 0, isRunning := true, isBreak := cs.isBreak },
        ClientEmit.switchEmit]) := by
    simp [clientTick, hrun, hone]
  refine ⟨{ rm with
      timerState := applyTimerAction
                      ({ rm.timerState with timeRemaining := 0, isRunning := true })
                      now TimerAction.switchMode },
    ?_, rfl, rfl, rfl, ?_, rfl, by rw [hemits], by rw [hemits]⟩
  · rw [hemits]
    simp only [List.map_cons, List.map_nil, clientEmitToEv, runTrace]
    simp [handleEvent, hcur, hdb, alookup_aset, applyTimerAction]
  · cases hb : rm.timerState.isBreak <;>
      simp [applyTimerAction, hb] <;> omega

theorem claim_C1_tick_to_zero_switches_phase_witness :
    tsW1.timeRemaining = 1 ∧
    (∃ rm' : DRoom,
      alookup "r" (runTrace sysW ((clientTick true tsW1).2.map (clientEmitToEv "A" roomW.host 7))).db
        = some rm' ∧
      rm'.timerState.isRunning = false ∧
      rm'.timerState.isBreak = !roomW.timerState.isBreak ∧
      rm'.timerState.timeRemaining =
        (if !roomW.timerState.isBreak then roomW.timerState.breakDuration
         else roomW.timerState.workDuration) ∧
      0 ≤ rm'.timerState.timeRemaining ∧
      rm'.timerState.startedAt = none ∧
      (clientTick true tsW1).1.timeRemaining = 0 ∧
      (clientTick true tsW1).1.isRunning = false) :=
  ⟨rfl,
   claim_C1_tick_to_zero_switches_phase tsW1 sysW "A" 7 "r" roomW
     rfl rfl (by decide) (by decide) (by decide) (by decide)⟩

theorem countP_congrB {α : Type} (p q : α → Bool) (l : List α)
    (h : ∀ a ∈ l, p a = q a) : l.countP p = l.countP q :=
  List.countP_congr (fun x hx => by rw [h x hx])

theorem countP_split {α : Type} (p q : α → Bool) (l : List α) :
    l.countP p = l.countP (fun a => p a && q a) + l.countP (fun a => p a && !q a) := by
  induction l with
  | nil => simp
  | cons a l ih =>
    simp only [List.countP_cons, ih]
    cases hp : p a <;> cases hq : q a <;> simp <;> omega

theorem countP_unique_conn (l : List PresenceEntry) (c : ConnId)
    (hnd : (l.map PresenceEntry.conn).Nodup) (e₀ : PresenceEntry)
    (h0 : e₀ ∈ l) (hc : e₀.conn = c) :
    l.countP (fun e => e.conn == c) = 1 := by
  induction l with
  | nil => cases h0
  | cons a l ih =>
    simp only [List.map_cons, List.nodup_cons] at hnd
    rcases List.mem_cons.mp h0 with h | h
    · subst h
      have hz : l.countP (fun e => e.conn == c) = 0 := by
        apply List.countP_eq_zero.mpr
        intro e he hbe
        apply hnd.1
        have hec : e.conn = c := beq_iff_eq.mp hbe
        rw [hc, ← hec]
        exact List.mem_map_of_mem PresenceEntry.conn he
      simp [List.countP_cons, hz, hc]
    · have hane : a.conn ≠ c := by
        intro hac
        apply hnd.1
        rw [hac, ← hc]
        exact List.mem_map_of_mem PresenceEntry.conn h
      simp [List.countP_cons, ih hnd.2 h, hane]

theorem upsertEntry_eq_append (v : PresenceEntry) (l : List PresenceEntry)
    (h : ∀ e ∈ l, e.conn ≠ v.conn) : upsertEntry v l = l ++ [v] := by
  induction l with
  | nil => rfl
  | cons a l ih =>
    have hne : ¬(a.room = v.room ∧ a.conn = v.conn) := fun hc =>
      h a (List.mem_cons_self a l) hc.2
    simp only [upsertEntry, if_neg hne, List.cons_append]
    rw [ih (fun e he => h e (List.mem_cons_of_mem a he))]

theorem alookup_aset_isSome {α β : Type} [DecidableEq α] (k k' : α) (v : β)
    (l : List (α × β)) (h : (alookup k l).isSome = true) :
    (alookup k (aset k' v l)).isSome = true := by
  rw [alookup_aset]
  split_ifs <;> simp [h]

theorem wf_no_join (rooms : List RoomId) (c : ConnId) (r : RoomId) :
    ∀ (tr : List Ev) (J : List ConnId), wf rooms tr J = true → c ∈ J →
      c ∉ joinsOf tr r := by
  intro tr
  induction tr with
  | nil => intro J _ _ h; cases h
  | cons e tr ih =>
    intro J hwf hcJ
    cases e with
    | joinRoom c' u' n' r' =>
      simp only [wf, Bool.and_eq_true, decide_eq_true_eq, Bool.not_eq_true',
        decide_eq_false_iff_not] at hwf
      obtain ⟨⟨hr', hc'⟩, hwf'⟩ := hwf
      simp only [joinsOf]
      split_ifs with hrr
      · intro hmem
        rcases List.mem_cons.mp hmem with h | h
        · exact hc' (h ▸ hcJ)
        · exact ih (c' :: J) hwf' (List.mem_cons_of_mem c' hcJ) h
      · exact ih (c' :: J) hwf' (List.mem_cons_of_mem c' hcJ)
    | leaveRoom c' u' n' =>
      simp only [wf, Bool.and_eq_true, decide_eq_true_eq] at hwf
      exact ih J hwf.2 hcJ
    | disconnect c' u' n' =>
      simp only [wf, Bool.and_eq_true, decide_eq_true_eq] at hwf
      exact ih J hwf.2 hcJ
    | sendMessage c' u' n' content now => exact ih J hwf hcJ
    | timerCmd c' u' act now => exact ih J hwf hcJ
    | timerTick c' p => exact ih J hwf hcJ
    | videoReady c' n' => exact ih J hwf hcJ
    | videoOffer c' n' t payload => exact ih J hwf hcJ
    | videoAnswer c' t payload => exact ih J hwf hcJ
    | videoIce c' t payload => exact ih J hwf hcJ
    | videoLeave c' => exact ih J hwf hcJ

theorem handleEvent_nonpresence (s : Sys) (e : Ev) (h : isPresenceEv e = false) :
    (handleEvent s e).1.users = s.users ∧ (handleEvent s e).1.cur = s.cur ∧
    (∀ k, (alookup k s.db).isSome = true → (alookup k (handleEvent s e).1.db).isSome = true) := by
  cases e with
  | joinRoom c u n r => simp [isPresenceEv] at h
  | leaveRoom c u n => simp [isPresenceEv] at h
  | disconnect c u n => simp [isPresenceEv] at h
  | sendMessage c u n content now =>
    cases hc : s.cur c with
    | none => simp [handleEvent, hc]
    | some r =>
      by_cases hcon : content = "" <;>
        cases hbuf : alookup r s.msgs <;>
          simp [handleEvent, hc, hcon, hbuf]
  | timerCmd c u act now =>
    cases hc : s.cur c with
    | none => simp [handleEvent, hc]
    | some r =>
      cases hdb : alookup r s.db with
      | none => simp [handleEvent, hc, hdb]
      | some rm =>
        by_cases hh : rm.host ≠ u
        · simp [handleEvent, hc, hdb, hh]
        · refine ⟨?_, ?_, ?_⟩
          · simp [handleEvent, hc, hdb, hh]
          · simp [handleEvent, hc, hdb, hh]
          · intro k hk
            simp only [handleEvent, hc, hdb, if_neg hh]
            exact alookup_aset_isSome k r _ _ hk
  | timerTick c p =>
    cases hc : s.cur c with
    | none => simp [handleEvent, hc]
    | some r =>
      cases hdb : alookup r s.db with
      | none => simp [handleEvent, hc, hdb]
      | some rm =>
        refine ⟨?_, ?_, ?_⟩
        · simp [handleEvent, hc, hdb]
        · simp [handleEvent, hc, hdb]
        · intro k hk
          simp only [handleEvent, hc, hdb]
          exact alookup_aset_isSome k r _ _ hk
  | videoReady c n =>
    cases hc : s.cur c <;> simp [handleEvent, hc]
  | videoOffer c n t payload => simp [handleEvent]
  | videoAnswer c t payload => simp [handleEvent]
  | videoIce c t payload => simp [handleEvent]
  | videoLeave c =>
    cases hc : s.cur c <;> simp [handleEvent, hc]

theorem handleLeaveRoom_none (s : Sys) (c : ConnId) (u n : String)
    (h : s.cur c = none) : handleLeaveRoom s c u n = (s, []) := by
  simp [handleLeaveRoom, h]

theorem handleLeaveRoom_some (s : Sys) (c : ConnId) (u n : String) (r₀ : RoomId)
    (h : s.cur c = some r₀) :
    (handleLeaveRoom s c u n).1.users
        = s.users.filter (fun e => !(e.room == r₀ && e.conn == c)) ∧
    (handleLeaveRoom s c u n).1.cur = setCur c none s.cur ∧
    (handleLeaveRoom s c u n).1.db = s.db := by
  simp only [handleLeaveRoom, h]
  by_cases h1 : (s.users.any fun e => e.room == r₀) = true
  · rw [if_pos h1]
    by_cases h2 : ((s.users.filter fun e => !(e.room == r₀ && e.conn == c)).any
        fun e => e.room == r₀) = true
    · rw [if_pos h2]
      exact ⟨rfl, rfl, rfl⟩
    · rw [if_neg h2]
      exact ⟨rfl, rfl, rfl⟩
  · rw [if_neg h1]
    refine ⟨?_, rfl, rfl⟩
    have hfix : (s.users.filter fun e => !(e.room == r₀ && e.conn == c)) = s.users := by
      apply List.filter_eq_self.mpr
      intro e he
      have hf : (e.room == r₀) = false :=
        Bool.eq_false_iff.mpr (List.any_eq_false.mp (Bool.eq_false_iff.mpr h1) e he)
      simp [hf]
    exact hfix.symm

theorem joinsOf_nodup (rooms : List RoomId) (r : RoomId) :
    ∀ (tr : List Ev) (J : List ConnId), wf rooms tr J = true → (joinsOf tr r).Nodup := by
  intro tr
  induction tr with
  | nil => intro J _; exact List.nodup_nil
  | cons e tr ih =>
    intro J hwf
    cases e with
    | joinRoom c u n r' =>
      have hwf2 : (decide (r' ∈ rooms) && !decide (c ∈ J) && wf rooms tr (c :: J)) = true := hwf
      simp only [Bool.and_eq_true, Bool.not_eq_true', decide_eq_true_eq,
        decide_eq_false_iff_not] at hwf2
      obtain ⟨⟨hr', hcJ⟩, hwf'⟩ := hwf2
      show (if r' = r then c :: joinsOf tr r else joinsOf tr r).Nodup
      split_ifs with hrr
      · exact List.nodup_cons.mpr
          ⟨wf_no_join rooms c r tr (c :: J) hwf' (List.mem_cons_self c J), ih (c :: J) hwf'⟩
      · exact ih (c :: J) hwf'
    | leaveRoom c u n =>
      have hwf2 : (decide (c ∈ J) && wf rooms tr J) = true := hwf
      simp only [Bool.and_eq_true, decide_eq_true_eq] at hwf2
      exact ih J hwf2.2
    | disconnect c u n =>
      have hwf2 : (decide (c ∈ J) && wf rooms tr J) = true := hwf
      simp only [Bool.and_eq_true, decide_eq_true_eq] at hwf2
      exact ih J hwf2.2
    | sendMessage c u n content now => exact ih J hwf
    | timerCmd c u act now => exact ih J hwf
    | timerTick c p => exact ih J hwf
    | videoReady c n => exact ih J hwf
    | videoOffer c n t payload => exact ih J hwf
    | videoAnswer c t payload => exact ih J hwf
    | videoIce c t payload => exact ih J hwf
    | videoLeave c => exact ih J hwf

theorem nonpresence_count_aux (rooms : List RoomId) (r : RoomId) (tr : List Ev)
    (ih : ∀ (s : Sys) (J : List ConnId), Inv rooms s J → wf rooms tr J = true →
      count r (runTrace s tr)
          + s.users.countP (fun e => e.room == r && departedIn tr e.conn)
        = count r s + (joinsOf tr r).countP (fun x => !departedIn tr x))
    (s : Sys) (J : List ConnId) (e : Ev)
    (hpres : isPresenceEv e = false) (hInv : Inv rooms s J)
    (hwf : wf rooms tr J = true) :
    count r (runTrace (handleEvent s e).1 tr)
        + s.users.countP (fun x => x.room == r && departedIn tr x.conn)
      = count r s + (joinsOf tr r).countP (fun x => !departedIn tr x) := by
  obtain ⟨hu, hcu, hdbp⟩ := handleEvent_nonpresence s e hpres
  obtain ⟨invA, invB, invC, invD, invDb⟩ := hInv
  have hInv' : Inv rooms (handleEvent s e).1 J := by
    refine ⟨?_, ?_, ?_, ?_, ?_⟩
    · intro x hx
      rw [hu] at hx
      rw [hcu]
      exact invA x hx
    · intro x ρ hx
      rw [hcu] at hx
      obtain ⟨w, hw, h1, h2⟩ := invB x ρ hx
      refine ⟨w, ?_, h1, h2⟩
      rw [hu]
      exact hw
    · rw [hu]; exact invC
    · intro x hx
      rw [hu] at hx
      exact invD x hx
    · intro r' hr'
      exact hdbp r' (invDb r' hr')
  have IH := ih (handleEvent s e).1 J hInv' hwf
  have hc1 : count r (handleEvent s e).1 = count r s := by
    show ((handleEvent s e).1.users).countP (fun x => x.room == r) = _
    rw [hu]
    rfl
  have hc2 : ((handleEvent s e).1.users).countP (fun x => x.room == r && departedIn tr x.conn)
      = s.users.countP (fun x => x.room == r && departedIn tr x.conn) := by
    rw [hu]
  rw [hc1, hc2] at IH
  exact IH

theorem leave_count_aux (rooms : List RoomId) (r : RoomId) (tr : List Ev)
    (ih : ∀ (s : Sys) (J : List ConnId), Inv rooms s J → wf rooms tr J = true →
      count r (runTrace s tr)
          + s.users.countP (fun e => e.room == r && departedIn tr e.conn)
        = count r s + (joinsOf tr r).countP (fun x => !departedIn tr x))
    (s : Sys) (J : List ConnId) (c : ConnId) (u n : String)
    (hInv : Inv rooms s J) (hcJ : c ∈ J) (hwf : wf rooms tr J = true) :
    count r (runTrace (handleLeaveRoom s c u n).1 tr)
        + s.users.countP (fun e => e.room == r && ((c == e.conn) || departedIn tr e.conn))
      = count r s + (joinsOf tr r).countP (fun x => !((c == x) || departedIn tr x)) := by
  obtain ⟨invA, invB, invC, invD, invDb⟩ := hInv
  have hX : (joinsOf tr r).countP (fun x => !((c == x) || departedIn tr x))
      = (joinsOf tr r).countP (fun x => !departedIn tr x) := by
    apply countP_congrB
    intro x hx
    have hxc : (c == x) = false := by
      apply Bool.eq_false_iff.mpr
      intro hbe
      apply wf_no_join rooms c r tr J hwf hcJ
      rw [beq_iff_eq.mp hbe]
      exact hx
    rw [hxc]
    simp
  rw [hX]
  cases hc : s.cur c with
  | none =>
    have h1 : (handleLeaveRoom s c u n).1 = s := by
      rw [handleLeaveRoom_none s c u n hc]
    have hnoc : ∀ e ∈ s.users, ¬e.conn = c := by
      intro e he heq
      have hA := invA e he
      rw [heq, hc] at hA
      cases hA
    have hD : s.users.countP (fun e => e.room == r && ((c == e.conn) || departedIn tr e.conn))
        = s.users.countP (fun e => e.room == r && departedIn tr e.conn) := by
      apply countP_congrB
      intro e he
      have hf : (c == e.conn) = false := by
        apply Bool.eq_false_iff.mpr
        intro hbe
        exact hnoc e he (beq_iff_eq.mp hbe).symm
      rw [hf]
      simp
    rw [h1, hD]
    exact ih s J ⟨invA, invB, invC, invD, invDb⟩ hwf
  | some r₀ =>
    obtain ⟨e₀, he₀mem, he₀conn, he₀room⟩ := invB c r₀ hc
    obtain ⟨husers, hcur, hdb⟩ := handleLeaveRoom_some s c u n r₀ hc
    have hconnroom : ∀ e ∈ s.users, e.conn = c → e.room = r₀ := by
      intro e he hec
      have hA := invA e he
      rw [hec, hc] at hA
      exact (Option.some.inj hA).symm
    have hInv' : Inv rooms (handleLeaveRoom s c u n).1 J := by
      refine ⟨?_, ?_, ?_, ?_, ?_⟩
      · intro e he
        rw [husers] at he
        obtain ⟨he1, he2⟩ := List.mem_filter.mp he
        have hene : ¬e.conn = c := by
          intro hec
          have hroom : e.room = r₀ := hconnroom e he1 hec
          simp [hroom, hec] at he2
        rw [hcur]
        simp only [setCur]
        rw [if_neg hene]
        exact invA e he1
      · intro x ρ hx
        rw [hcur] at hx
        simp only [setCur] at hx
        by_cases hxc : x = c
        · rw [if_pos hxc] at hx; cases hx
        · rw [if_neg hxc] at hx
          obtain ⟨e, he, hec, her⟩ := invB x ρ hx
          refine ⟨e, ?_, hec, her⟩
          rw [husers]
          apply List.mem_filter.mpr
          refine ⟨he, ?_⟩
          have hf : (e.conn == c) = false := by
            apply Bool.eq_false_iff.mpr
            intro hbe
            exact hxc (hec.symm.trans (beq_iff_eq.mp hbe))
          simp [hf]
      · rw [husers]
        exact invC.sublist ((List.filter_sublist s.users).map PresenceEntry.conn)
      · intro e he
        rw [husers] at he
        exact invD e (List.mem_filter.mp he).1
      · intro r' hr'
        rw [hdb]
        exact invDb r' hr'
    have IH := ih (handleLeaveRoom s c u n).1 J hInv' hwf
    have hcount_filter : ∀ p : PresenceEntry → Bool,
        ((handleLeaveRoom s c u n).1.users).countP p
          = s.users.countP (fun e => p e && !(e.room == r₀ && e.conn == c)) := by
      intro p
      rw [husers]
      exact List.countP_filter ..
    by_cases hrr : r₀ = r
    · subst hrr
      have h1 : s.users.countP (fun e => (e.room == r₀) && (e.conn == c))
          = s.users.countP (fun e => e.conn == c) := by
        apply countP_congrB
        intro e he
        by_cases hec : e.conn = c
        · have hroom : e.room = r₀ := hconnroom e he hec
          simp [hroom, hec]
        · simp [hec]
      have h2 : s.users.countP (fun e => e.conn == c) = 1 :=
        countP_unique_conn s.users c invC e₀ he₀mem he₀conn
      have hsplit : count r₀ s
          = s.users.countP (fun e => (e.room == r₀) && (e.conn == c))
            + s.users.countP (fun e => (e.room == r₀) && !(e.conn == c)) :=
        countP_split _ _ _
      have hcount' : count r₀ (handleLeaveRoom s c u n).1
          = s.users.countP (fun e => (e.room == r₀) && !(e.conn == c)) := by
        show ((handleLeaveRoom s c u n).1.users).countP (fun e => e.room == r₀) = _
        rw [hcount_filter]
        apply countP_congrB
        intro e he
        cases hroom : (e.room == r₀) <;> cases hconn : (e.conn == c) <;> simp [hroom, hconn]
      have hD1 : s.users.countP
            (fun e => e.room == r₀ && ((c == e.conn) || departedIn tr e.conn))
          = s.users.countP
              (fun e => (e.room == r₀ && ((c == e.conn) || departedIn tr e.conn)) && (e.conn == c))
            + s.users.countP
              (fun e => (e.room == r₀ && ((c == e.conn) || departedIn tr e.conn)) && !(e.conn == c)) :=
        countP_split _ _ _
      have hD2 : s.users.countP
            (fun e => (e.room == r₀ && ((c == e.conn) || departedIn tr e.conn)) && (e.conn == c))
          = 1 := by
        rw [← h2]
        apply countP_congrB
        intro e he
        by_cases hec : e.conn = c
        · have hroom : e.room = r₀ := hconnroom e he hec
          have hcec : (c == e.conn) = true := beq_iff_eq.mpr hec.symm
          simp [hroom, hec, hcec]
        · simp [hec]
      have hD3 : s.users.countP
            (fun e => (e.room == r₀ && ((c == e.conn) || departedIn tr e.conn)) && !(e.conn == c))
          = ((handleLeaveRoom s c u n).1.users).countP
              (fun e => e.room == r₀ && departedIn tr e.conn) := by
        rw [hcount_filter]
        apply countP_congrB
        intro e he
        by_cases hec : e.conn = c
        · have hroom : e.room = r₀ := hconnroom e he hec
          simp [hroom, hec]
        · have hcecF : (c == e.conn) = false := by
            apply Bool.eq_false_iff.mpr
            intro hbe
            exact hec (beq_iff_eq.mp hbe).symm
          have hecF : (e.conn == c) = false := by
            apply Bool.eq_false_iff.mpr
            intro hbe
            exact hec (beq_iff_eq.mp hbe)
          cases hroom : (e.room == r₀) <;> cases hd : departedIn tr e.conn <;>
            simp [hroom, hd, hecF, hcecF]
      rw [hD1, hD2, hD3, hsplit, h1, h2, ← hcount']
      omega
    · have hcount' : count r (handleLeaveRoom s c u n).1 = count r s := by
        show ((handleLeaveRoom s c u n).1.users).countP (fun e => e.room == r) = _
        rw [hcount_filter]
        apply countP_congrB
        intro e he
        by_cases hroom : e.room = r
        · have hf : (e.room == r₀) = false := by
            apply Bool.eq_false_iff.mpr
            intro hbe
            exact hrr ((beq_iff_eq.mp hbe).symm.trans hroom)
          simp [hroom, hf]
          exact Or.inl fun h => hrr h.symm
        · simp [hroom]
      have hD : s.users.countP (fun e => e.room == r && ((c == e.conn) || departedIn tr e.conn))
          = ((handleLeaveRoom s c u n).1.users).countP
              (fun e => e.room == r && departedIn tr e.conn) := by
        rw [hcount_filter]
        apply countP_congrB
        intro e he
        by_cases hec : e.conn = c
        · have hroom₀ : e.room = r₀ := hconnroom e he hec
          have hf : (e.room == r) = false := by
            apply Bool.eq_false_iff.mpr
            intro hbe
            exact hrr (hroom₀.symm.trans (beq_iff_eq.mp hbe))
          simp [hf]
        · have hcecF : (c == e.conn) = false := by
            apply Bool.eq_false_iff.mpr
            intro hbe
            exact hec (beq_iff_eq.mp hbe).symm
          have hecF : (e.conn == c) = false := by
            apply Bool.eq_false_iff.mpr
            intro hbe
            exact hec (beq_iff_eq.mp hbe)
          simp [hcecF, hecF]
      rw [hD, ← hcount']
      exact IH

theorem presence_count_general (rooms : List RoomId) (r : RoomId) :
    ∀ (tr : List Ev) (s : Sys) (J : List ConnId),
      Inv rooms s J → wf rooms tr J = true →
      count r (runTrace s tr)
          + s.users.countP (fun e => e.room == r && departedIn tr e.conn)
        = count r s + (joinsOf tr r).countP (fun x => !departedIn tr x) := by
  intro tr
  induction tr with
  | nil =>
    intro s J _ _
    simp [runTrace, joinsOf, departedIn, count]
  | cons e tr ih =>
    intro s J hInv hwf
    cases e with
    | joinRoom c u n r' =>
      have hwf2 : (decide (r' ∈ rooms) && !decide (c ∈ J) && wf rooms tr (c :: J)) = true := hwf
      simp only [Bool.and_eq_true, Bool.not_eq_true', decide_eq_true_eq,
        decide_eq_false_iff_not] at hwf2
      obtain ⟨⟨hr', hcJ⟩, hwf'⟩ := hwf2
      obtain ⟨invA, invB, invC, invD, invDb⟩ := hInv
      obtain ⟨rm, hrm⟩ : ∃ rm, alookup r' s.db = some rm :=
        Option.isSome_iff_exists.mp (invDb r' hr')
      have hfresh : ∀ e ∈ s.users, e.conn ≠ c := by
        intro e he heq
        exact hcJ (heq ▸ invD e he)
      have hupsert : upsertEntry ⟨r', c, u, n⟩ s.users = s.users ++ [⟨r', c, u, n⟩] :=
        upsertEntry_eq_append _ _ hfresh
      have hS : (handleEvent s (Ev.joinRoom c u n r')).1.users
            = s.users ++ [⟨r', c, u, n⟩] ∧
          (handleEvent s (Ev.joinRoom c u n r')).1.cur = setCur c (some r') s.cur ∧
          (handleEvent s (Ev.joinRoom c u n r')).1.db = s.db := by
        cases hmsg : alookup r' s.msgs <;> simp [handleEvent, hrm, hmsg, hupsert]
      obtain ⟨hu2, hcu2, hdb2⟩ := hS
      have hInv' : Inv rooms (handleEvent s (Ev.joinRoom c u n r')).1 (c :: J) := by
        refine ⟨?_, ?_, ?_, ?_, ?_⟩
        · intro e he
          rw [hu2] at he
          rw [hcu2]
          rcases List.mem_append.mp he with h | h
          · simp only [setCur]
            rw [if_neg (hfresh e h)]
            exact invA e h
          · have he' : e = ⟨r', c, u, n⟩ := List.mem_singleton.mp h
            subst he'
            simp [setCur]
        · intro x ρ hx
          rw [hcu2] at hx
          simp only [setCur] at hx
          by_cases hxc : x = c
          · rw [if_pos hxc] at hx
            have hρ : ρ = r' := (Option.some.inj hx).symm
            refine ⟨⟨r', c, u, n⟩, ?_, hxc.symm, hρ.symm⟩
            rw [hu2]
            exact List.mem_append_right _ (List.mem_singleton.mpr rfl)
          · rw [if_neg hxc] at hx
            obtain ⟨e, he, h1, h2⟩ := invB x ρ hx
            refine ⟨e, ?_, h1, h2⟩
            rw [hu2]
            exact List.mem_append_left _ he
        · rw [hu2, List.map_append, List.nodup_append]
          refine ⟨invC, List.nodup_singleton _, ?_⟩
          intro x hx hx2
          obtain ⟨e, he, hex⟩ := List.mem_map.mp hx
          have hxc : x = c := List.mem_singleton.mp hx2
          exact hcJ (hxc ▸ hex ▸ invD e he)
        · intro e he
          rw [hu2] at he
          rcases List.mem_append.mp he with h | h
          · exact List.mem_cons_of_mem c (invD e h)
          · rw [List.mem_singleton.mp h]
            exact List.mem_cons_self c J
        · intro r₁ hr₁
          rw [hdb2]
          exact invDb r₁ hr₁
      have IH := ih (handleEvent s (Ev.joinRoom c u n r')).1 (c :: J) hInv' hwf'
      have hcount' : count r (handleEvent s (Ev.joinRoom c u n r')).1
          = count r s + (if r' = r then 1 else 0) := by
        show ((handleEvent s (Ev.joinRoom c u n r')).1.users).countP (fun e => e.room == r) = _
        rw [hu2, List.countP_append]
        by_cases hrr : r' = r <;> simp [List.countP_cons, hrr, count]
      have hD' : ((handleEvent s (Ev.joinRoom c u n r')).1.users).countP
            (fun e => e.room == r && departedIn tr e.conn)
          = s.users.countP (fun e => e.room == r && departedIn tr e.conn)
            + (if r' = r then (if departedIn tr c then 1 else 0) else 0) := by
        rw [hu2, List.countP_append]
        by_cases hrr : r' = r <;> cases hd : departedIn tr c <;>
          simp [List.countP_cons, hrr, hd]
      rw [hcount', hD'] at IH
      have hrun : runTrace s (Ev.joinRoom c u n r' :: tr)
          = runTrace (handleEvent s (Ev.joinRoom c u n r')).1 tr := rfl
      have hdep0 : departedIn (Ev.joinRoom c u n r' :: tr) = departedIn tr :=
        funext fun x => rfl
      rw [hrun]
      simp only [hdep0]
      by_cases hrr : r' = r
      · have hjoins0 : joinsOf (Ev.joinRoom c u n r' :: tr) r = c :: joinsOf tr r := by
          show (if r' = r then c :: joinsOf tr r else joinsOf tr r) = _
          rw [if_pos hrr]
        rw [hjoins0, List.countP_cons]
        simp only [if_pos hrr] at IH
        cases hd : departedIn tr c <;> simp [hd] at IH ⊢ <;> omega
      · have hjoins0 : joinsOf (Ev.joinRoom c u n r' :: tr) r = joinsOf tr r := by
          show (if r' = r then c :: joinsOf tr r else joinsOf tr r) = _
          rw [if_neg hrr]
        rw [hjoins0]
        simp only [if_neg hrr] at IH
        omega
    | leaveRoom c u n =>
      have hwf2 : (decide (c ∈ J) && wf rooms tr J) = true := hwf
      simp only [Bool.and_eq_true, decide_eq_true_eq] at hwf2
      exact leave_count_aux rooms r tr ih s J c u n hInv hwf2.1 hwf2.2
    | disconnect c u n =>
      have hwf2 : (decide (c ∈ J) && wf rooms tr J) = true := hwf
      simp only [Bool.and_eq_true, decide_eq_true_eq] at hwf2
      exact leave_count_aux rooms r tr ih s J c u n hInv hwf2.1 hwf2.2
    | sendMessage c u n content now =>
      exact nonpresence_count_aux rooms r tr ih s J _ rfl hInv hwf
    | timerCmd c u act now =>
      exact nonpresence_count_aux rooms r tr ih s J _ rfl hInv hwf
    | timerTick c p =>
      exact nonpresence_count_aux rooms r tr ih s J _ rfl hInv hwf
    | videoReady c n =>
      exact nonpresence_count_aux rooms r tr ih s J _ rfl hInv hwf
    | videoOffer c n t payload =>
      exact nonpresence_count_aux rooms r tr ih s J _ rfl hInv hwf
    | videoAnswer c t payload =>
      exact nonpresence_count_aux rooms r tr ih s J _ rfl hInv hwf
    | videoIce c t payload =>
      exact nonpresence_count_aux rooms r tr ih s J _ rfl hInv hwf
    | videoLeave c =>
      exact nonpresence_count_aux rooms r tr ih s J _ rfl hInv hwf

/-- C8 fails on the code: the `join-room` handler does not remove the
connection from its previous room, so joining `R2` while still joined to
`R1` and then disconnecting leaves a ghost entry in `R1` — its count is
1, while joins (1) minus departures (1) is 0. -/
theorem claim_C8_counterexample :
    count "R1" (runTrace sys8 tr8) = 1 ∧
    (joinedConns tr8 "R1").length - (departedConns tr8 "R1").length = 0 ∧
    count "R1" (runTrace sys8 tr8)
      ≠ (joinedConns tr8 "R1").length - (departedConns tr8 "R1").length := by
  decide

/-- C8 amended: provided every connection joins at most once in its
lifetime (in particular it never joins a second room while joined
elsewhere and never re-joins after leaving), issues `leave-room` or
`disconnect` only after having joined, and every join targets an existing
room, the Presence Registry count of each room equals at every point the
number of connectionIds that have joined it minus the number of those
that have left or disconnected. -/
theorem claim_C8_amended_presence_count
    (rooms : List RoomId) (s₀ : Sys) (tr : List Ev) (r : RoomId)
    (hw : wf rooms tr [] = true)
    (husers : s₀.users = []) (hcur : ∀ c, s₀.cur c = none)
    (hdb : ∀ r' ∈ rooms, (alookup r' s₀.db).isSome = true) :
    count r (runTrace s₀ tr)
      = (joinedConns tr r).length - (departedConns tr r).length := by
  have hInv : Inv rooms s₀ [] := by
    refine ⟨?_, ?_, ?_, ?_, hdb⟩
    · intro e he; rw [husers] at he; cases he
    · intro c ρ hcc; rw [hcur c] at hcc; cases hcc
    · rw [husers]; exact List.nodup_nil
    · intro e he; rw [husers] at he; cases he
  have hmain := presence_count_general rooms r tr s₀ [] hInv hw
  have hzero1 : count r s₀ = 0 := by simp [count, husers]
  have hzero2 : s₀.users.countP (fun e => e.room == r && departedIn tr e.conn) = 0 := by
    rw [husers]; rfl
  rw [hzero1, hzero2] at hmain
  have hmain' : count r (runTrace s₀ tr)
      = (joinsOf tr r).countP (fun x => !departedIn tr x) := by omega
  have hnd : (joinsOf tr r).Nodup := joinsOf_nodup rooms r tr [] hw
  have hded : joinedConns tr r = joinsOf tr r := List.Nodup.dedup hnd
  have hsplit := countP_split (fun _ : ConnId => true) (fun x => departedIn tr x) (joinsOf tr r)
  simp only [Bool.true_and, List.countP_true] at hsplit
  have hdcount : (departedConns tr r).length
      = (joinsOf tr r).countP (fun x => departedIn tr x) := by
    show ((joinedConns tr r).filter (fun c => departedIn tr c)).length = _
    rw [hded, ← List.countP_eq_length_filter]
  rw [hded, hmain', hdcount]
  omega

theorem claim_C8_amended_presence_count_witness :
    wf ["R1", "R2"] tr8ok [] = true ∧
    count "R1" (runTrace sys8 tr8ok)
      = (joinedConns tr8ok "R1").length - (departedConns tr8ok "R1").length ∧
    count "R1" (runTrace sys8 tr8ok) = 1 :=
  ⟨by decide,
   claim_C8_amended_presence_count ["R1", "R2"] sys8 tr8ok "R1"
     (by decide) rfl (fun _ => rfl) (by decide),
   by decide⟩

end FocusMate
